import Mathlib

/-!
Verification of `src/tasks_database/init/01_init_collections.js`, the MongoDB
schema/index reconciliation script of the simple-task-organizer repository.

The script is shallowly embedded: BSON documents are the inductive `BVal`,
the two `$jsonSchema` validators are literal `Schema` terms copied from the
source, the database is an association list of collection states, and the
script body is a function from database states to database states together
with the trace of database commands it issues.  MongoDB itself is not part
of the repository, so the semantics of its commands (`createCollection`,
`collMod`, `createIndex`, `insertOne`, `insertMany`, `$jsonSchema`
validation) are modelled from the specification's description of them.
-/

namespace MongoInit

/-- BSON values, as far as the script's documents and validators use them.
ObjectIds and dates are abstracted to `Nat` identifiers/timestamps. -/
inductive BVal where
  | objectId (n : Nat)
  | str (s : String)
  | date (t : Nat)
  | bool (b : Bool)
  | null
  | int (i : Int)
  | array (xs : List BVal)
  | obj (fields : List (String × BVal))

/-- The BSON type names used by the two validators' `bsonType` fields. -/
inductive BsonType where
  | objectId | string | date | bool | null | int | array | object
deriving DecidableEq

/-- The BSON type of a value. -/
def bsonTypeOf : BVal → BsonType
  | .objectId _ => .objectId
  | .str _ => .string
  | .date _ => .date
  | .bool _ => .bool
  | .null => .null
  | .int _ => .int
  | .array _ => .array
  | .obj _ => .object

/-- A `$jsonSchema` validator tree, restricted to the keywords the two
schemas in the source actually use.  Constructor argument order:
`bsonType` (a scalar `bsonType` in the source is the singleton list),
`required`, `additionalProperties` (`none` when the keyword is absent),
`properties`, `minLength`, `maxLength`, `enum` (string enumerations only,
which is all the source uses), `items`.  The source's `description`,
`default` and `uniqueItems: false` annotations carry no validation force
and are not represented. -/
inductive Schema where
  | mk (bsonType : List BsonType)
       (required : List String)
       (additionalProperties : Option Bool)
       (properties : List (String × Schema))
       (minLength : Option Nat)
       (maxLength : Option Nat)
       (strEnum : Option (List String))
       (items : Option Schema)

mutual

/-- Modelled from the spec: MongoDB `$jsonSchema` document validation for
the keywords of §3's validator trees (required fields, type unions, string
length bounds, enumerations, nested object/array item schemas, and the
reject-unknown-top-level-fields flag).  `minLength`/`maxLength`/`enum`
constrain string values; `required`/`properties`/`additionalProperties`
constrain objects; `items` constrains array elements. -/
def docMatches : Schema → BVal → Bool
  | .mk bt req addl props minL maxL en items, v =>
    (bt.isEmpty || bt.contains (bsonTypeOf v)) &&
    (match v with
     | .str s =>
        (match minL with | some n => decide (n ≤ s.length) | none => true) &&
        (match maxL with | some n => decide (s.length ≤ n) | none => true) &&
        (match en with | some es => es.contains s | none => true)
     | .obj fields =>
        req.all (fun r => fields.any (fun kv => kv.1 == r)) &&
        fieldsMatch props addl fields
     | .array xs =>
        (match items with
         | some isch => itemsMatch isch xs
         | none => true)
     | _ => true)

/-- Every field of an object satisfies its property schema (or, when the
field is not a declared property, `additionalProperties` is not `false`). -/
def fieldsMatch (props : List (String × Schema)) (addl : Option Bool) :
    List (String × BVal) → Bool
  | [] => true
  | kv :: rest => fieldMatch props addl kv.1 kv.2 && fieldsMatch props addl rest

/-- Look up a field name among the declared properties and validate the
value against the matching property schema; an undeclared field is
acceptable unless `additionalProperties` is `false`. -/
def fieldMatch : List (String × Schema) → Option Bool → String → BVal → Bool
  | [], addl, _, _ => addl != some false
  | (pk, ps) :: rest, addl, k, v =>
    if pk == k then docMatches ps v else fieldMatch rest addl k v

/-- Every element of an array satisfies the `items` schema. -/
def itemsMatch (s : Schema) : List BVal → Bool
  | [] => true
  | x :: xs => docMatches s x && itemsMatch s xs

end

/-- First field of an object document with the given name, if any. -/
def getField : BVal → String → Option BVal
  | .obj fields, k => (fields.find? (fun kv => kv.1 == k)).map (·.2)
  | _, _ => none

/-- The `usersSchema` validator, lines 59-97 of the source. -/
def usersSchema : Schema :=
  .mk [.object] ["email", "passwordHash", "createdAt"] (some false)
    [ ("_id", .mk [.objectId] [] none [] none none none none),
      ("email", .mk [.string] [] none [] (some 5) (some 320) none none),
      ("passwordHash", .mk [.string] [] none [] (some 20) none none none),
      ("name", .mk [.string, .null] [] none [] none (some 120) none none),
      ("roles", .mk [.array] [] none [] none none none
        (some (.mk [.string] [] none [] none none none none))),
      ("createdAt", .mk [.date] [] none [] none none none none),
      ("updatedAt", .mk [.date, .null] [] none [] none none none none),
      ("lastLoginAt", .mk [.date, .null] [] none [] none none none none),
      ("isActive", .mk [.bool] [] none [] none none none none),
      ("meta", .mk [.object, .null] [] (some true) [] none none none none) ]
    none none none none

/-- The `tasksSchema` validator, lines 100-159 of the source. -/
def tasksSchema : Schema :=
  .mk [.object] ["title", "status", "ownerId", "createdAt"] (some false)
    [ ("_id", .mk [.objectId] [] none [] none none none none),
      ("title", .mk [.string] [] none [] (some 1) (some 300) none none),
      ("description", .mk [.string, .null] [] none [] none (some 5000) none none),
      ("status", .mk [.string] [] none [] none none
        (some ["todo", "in_progress", "done", "archived"]) none),
      ("priority", .mk [.string, .int, .null] [] none [] none (some 20) none none),
      ("dueDate", .mk [.date, .null] [] none [] none none none none),
      ("ownerId", .mk [.objectId] [] none [] none none none none),
      ("tags", .mk [.array] [] none [] none none none
        (some (.mk [.string] [] none [] none none none none))),
      ("createdAt", .mk [.date] [] none [] none none none none),
      ("updatedAt", .mk [.date, .null] [] none [] none none none none),
      ("completedAt", .mk [.date, .null] [] none [] none none none none),
      ("isDeleted", .mk [.bool] [] none [] none none none none),
      ("checklist", .mk [.array] [] none [] none none none
        (some (.mk [.object] ["text", "done"] (some false)
          [ ("text", .mk [.string] [] none [] (some 1) (some 1000) none none),
            ("done", .mk [.bool] [] none [] none none none none),
            ("doneAt", .mk [.date, .null] [] none [] none none none none) ]
          none none none none))) ]
    none none none none

/-- The seeded demo user document, lines 185-196 of the source; `uid` is
the `ObjectId` minted on line 184 and `now` the timestamp of line 183. -/
def seedUser (uid now : Nat) : BVal :=
  .obj [ ("_id", .objectId uid),
         ("email", .str "demo@example.com"),
         ("passwordHash", .str "bcrypt$demo-placeholder"),
         ("name", .str "Demo User"),
         ("roles", .array [.str "user"]),
         ("createdAt", .date now),
         ("updatedAt", .null),
         ("lastLoginAt", .null),
         ("isActive", .bool true),
         ("meta", .null) ]

/-- The first seeded demo task, lines 200-216 of the source. -/
def seedTask1 (uid now : Nat) : BVal :=
  .obj [ ("title", .str "Welcome to your To-Do app"),
         ("description", .str "Edit or delete this task. Create more to get started."),
         ("status", .str "todo"),
         ("priority", .str "medium"),
         ("dueDate", .null),
         ("ownerId", .objectId uid),
         ("tags", .array [.str "welcome", .str "getting-started"]),
         ("createdAt", .date now),
         ("updatedAt", .null),
         ("completedAt", .null),
         ("isDeleted", .bool false),
         ("checklist", .array
           [ .obj [("text", .str "Explore the app"), ("done", .bool false), ("doneAt", .null)],
             .obj [("text", .str "Add a new task"), ("done", .bool false), ("doneAt", .null)] ]) ]

/-- The second seeded demo task, lines 217-230 of the source. -/
def seedTask2 (uid now : Nat) : BVal :=
  .obj [ ("title", .str "Try completing a task"),
         ("description", .str "Mark this task as done"),
         ("status", .str "in_progress"),
         ("priority", .str "low"),
         ("dueDate", .null),
         ("ownerId", .objectId uid),
         ("tags", .array [.str "demo"]),
         ("createdAt", .date now),
         ("updatedAt", .null),
         ("completedAt", .null),
         ("isDeleted", .bool false),
         ("checklist", .array []) ]

/-- The kind of an index key: ascending `1`, descending `-1`, or `"text"`. -/
inductive KeyVal where
  | asc | desc | text
deriving DecidableEq

/-- The string a key value interpolates to in the script's derived index
name (line 45: `1`, `-1`, or `text`). -/
def keyValStr : KeyVal → String
  | .asc => "1"
  | .desc => "-1"
  | .text => "text"

/-- Index options, covering every option key appearing in the source's
index specifications plus the `collection` option consulted by line 47. -/
structure IndexOptions where
  name : Option String := none
  unique : Bool := false
  weights : List (String × Nat) := []
  default_language : Option String := none
  collection : Option String := none
deriving DecidableEq

/-- One entry of an index list: `{ keys: {...}, options: {...} }`. -/
structure IndexSpec where
  keys : List (String × KeyVal)
  options : IndexOptions
deriving DecidableEq

/-- The `usersIndexes` list, lines 162-166 of the source. -/
def usersIndexes : List IndexSpec :=
  [ ⟨[("email", .asc)], { unique := true, name := some "uniq_email" }⟩,
    ⟨[("isActive", .asc)], { name := some "idx_isActive" }⟩,
    ⟨[("createdAt", .desc)], { name := some "idx_createdAt_desc" }⟩ ]

/-- The `tasksIndexes` list, lines 168-174 of the source. -/
def tasksIndexes : List IndexSpec :=
  [ ⟨[("ownerId", .asc), ("status", .asc), ("isDeleted", .asc), ("createdAt", .desc)],
      { name := some "idx_owner_status_deleted_created" }⟩,
    ⟨[("dueDate", .asc)], { name := some "idx_dueDate" }⟩,
    ⟨[("title", .text), ("description", .text), ("tags", .text)],
      { name := some "text_search",
        weights := [("title", 10), ("description", 5), ("tags", 2)],
        default_language := some "english" }⟩,
    ⟨[("isDeleted", .asc)], { name := some "idx_isDeleted" }⟩,
    ⟨[("status", .asc), ("createdAt", .desc)], { name := some "idx_status_created_desc" }⟩ ]

/-- JavaScript `a || b` for a possibly-undefined string `a`: the empty
string is falsy, as is `undefined` (modelled by `none`). -/
def jsOr (o : Option String) (d : String) : String :=
  match o with
  | some s => if s = "" then d else s
  | none => d

/-- The derived index name of line 45 of the source:
`Object.keys(keys).map(k => k + "_" + keys[k]).join("_")`.  MongoDB uses
the same derivation for an index created without an explicit name, so this
also serves as the model's default index name. -/
def indexNameOfKeys (keys : List (String × KeyVal)) : String :=
  String.intercalate "_" (keys.map (fun kv => kv.1 ++ "_" ++ keyValStr kv.2))

/-- The effective name of an index entry: `options.name || derived`
(line 45 of the source). -/
def effIndexName (idx : IndexSpec) : String :=
  jsOr idx.options.name (indexNameOfKeys idx.keys)

/-- The collection a createIndex call of line 47 is issued on:
`db.getCollection(name ? options.collection || arguments[1] : arguments[1])`,
where `name` is the shadowing local of line 45 and `arguments[1]` is the
`name` parameter of `ensureCollection` (the `forEach` callback is an arrow
function, so `arguments` is the enclosing function's). -/
def indexOpTarget (idx : IndexSpec) (collName : String) : String :=
  if effIndexName idx ≠ "" then jsOr idx.options.collection collName else collName

/-- The state of one collection: the installed validator (schema,
validation level, validation action), the indexes by name, and the
documents in insertion order. -/
structure CollState where
  validator : Option (Schema × String × String)
  indexes : List (String × (List (String × KeyVal) × IndexOptions))
  docs : List BVal

/-- A database: an association list from collection names to states. -/
def DbState : Type := List (String × CollState)

/-- The collection of the given name, if it exists. -/
def getColl : DbState → String → Option CollState
  | [], _ => none
  | (k, cs) :: rest, n => if k = n then some cs else getColl rest n

/-- Replace the named collection's state, or append it if absent. -/
def setColl : DbState → String → CollState → DbState
  | [], n, cs => [(n, cs)]
  | (k, v) :: rest, n, cs =>
      if k = n then (n, cs) :: rest else (k, v) :: setColl rest n cs

/-- Whether a collection of the given name exists
(`db.getCollectionInfos({ name })` reporting a non-empty list). -/
def collExists (st : DbState) (c : String) : Bool :=
  (getColl st c).isSome

/-- The installed validator of a collection, `none` when the collection is
absent or has no validator. -/
def validatorD (st : DbState) (c : String) : Option (Schema × String × String) :=
  (getColl st c).bind (·.validator)

/-- Whether the named collection has an index of the given name. -/
def hasIndex (st : DbState) (c i : String) : Bool :=
  match getColl st c with
  | some cs => cs.indexes.any (fun e => e.1 = i)
  | none => false

/-- The documents of a collection, `[]` when the collection is absent. -/
def docsD (st : DbState) (c : String) : List BVal :=
  match getColl st c with
  | some cs => cs.docs
  | none => []

/-- Modelled from the spec: `countDocuments({})`, the number of documents
in the collection (0 for an absent collection). -/
def countDocuments (st : DbState) (c : String) : Nat :=
  (docsD st c).length

/-- The database commands the script issues. -/
inductive Op where
  | createCollection (coll : String) (schema : Schema) (level action : String)
  | collMod (coll : String) (schema : Schema) (level action : String)
  | createIndex (coll : String) (keys : List (String × KeyVal)) (options : IndexOptions)
  | insertOne (coll : String) (doc : BVal)
  | insertMany (coll : String) (docs : List BVal)

/-- Modelled from the spec: inserting one document.  With validation
action `error`, a document violating the installed validator is rejected
and the state is unchanged; otherwise the document is appended.  Inserting
into an absent collection creates it.  (Validation level `moderate` checks
every insert; it only relaxes updates of pre-existing non-conforming
documents, which the script never performs.) -/
def insertDoc (st : DbState) (c : String) (d : BVal) : DbState × Bool :=
  match getColl st c with
  | none => (setColl st c ⟨none, [], [d]⟩, true)
  | some cs =>
      match cs.validator with
      | some (sch, _, _) =>
          if docMatches sch d then
            (setColl st c { cs with docs := cs.docs ++ [d] }, true)
          else (st, false)
      | none => (setColl st c { cs with docs := cs.docs ++ [d] }, true)

/-- Modelled from the spec: ordered `insertMany` — documents are inserted
in order and a rejection stops the remaining inserts. -/
def insertManyDocs : DbState → String → List BVal → DbState
  | st, _, [] => st
  | st, c, d :: ds =>
      let r := insertDoc st c d
      if r.2 then insertManyDocs r.1 c ds else r.1

/-- Modelled from the spec: the effect of one database command.
`createCollection` installs the validator on a fresh collection (a no-op
if the collection exists; the script only issues it when absent).
`collMod` replaces the installed validator in place, touching neither
documents nor indexes.  `createIndex` is idempotent: re-declaring an index
whose name is already present is a no-op (spec §4.1 step 4), and building
an index on an absent collection creates the collection. -/
def applyOp (st : DbState) : Op → DbState
  | .createCollection n sch lvl act =>
      match getColl st n with
      | some _ => st
      | none => setColl st n ⟨some (sch, lvl, act), [], []⟩
  | .collMod n sch lvl act =>
      match getColl st n with
      | some cs => setColl st n { cs with validator := some (sch, lvl, act) }
      | none => st
  | .createIndex c keys opts =>
      let cs := (getColl st c).getD ⟨none, [], []⟩
      let idxName := jsOr opts.name (indexNameOfKeys keys)
      if cs.indexes.any (fun e => e.1 = idxName) then st
      else setColl st c { cs with indexes := cs.indexes ++ [(idxName, keys, opts)] }
  | .insertOne c d => (insertDoc st c d).1
  | .insertMany c ds => insertManyDocs st c ds

/-- Apply a list of commands in order. -/
def applyOps (st : DbState) (ops : List Op) : DbState :=
  ops.foldl applyOp st

/-- The trace of commands one `ensureCollection(db, name, schema, indexes)`
call (lines 21-50 of the source) issues against the state it starts from:
create the collection with the validator when absent (lines 23-29), else
`collMod` the validator (lines 30-38); then one `createIndex` per entry of
the index list (lines 41-49), on the collection line 47 resolves. -/
def ensureCollectionTrace (st : DbState) (n : String) (sch : Schema)
    (idxs : List IndexSpec) : List Op :=
  (if collExists st n then [Op.collMod n sch "moderate" "error"]
   else [Op.createCollection n sch "moderate" "error"]) ++
  idxs.map (fun idx => Op.createIndex (indexOpTarget idx n) idx.keys idx.options)

/-- The state after one `ensureCollection` call. -/
def ensureCollection (st : DbState) (n : String) (sch : Schema)
    (idxs : List IndexSpec) : DbState :=
  applyOps st (ensureCollectionTrace st n sch idxs)

/-- One run of the whole script (lines 177-232 of the source): ensure
`users`, ensure `tasks`, then — if and only if `users` counts zero
documents (line 181) — insert the seed user and the two seed tasks.
`uid` is the `ObjectId` minted on line 184 and `now` the `Date` of
line 183, both abstracted to parameters.  Returns the final state and the
trace of issued commands. -/
def runScript (uid now : Nat) (st : DbState) : DbState × List Op :=
  let t1 := ensureCollectionTrace st "users" usersSchema usersIndexes
  let st1 := applyOps st t1
  let t2 := ensureCollectionTrace st1 "tasks" tasksSchema tasksIndexes
  let st2 := applyOps st1 t2
  if countDocuments st2 "users" = 0 then
    let seedOps := [Op.insertOne "users" (seedUser uid now),
                    Op.insertMany "tasks" [seedTask1 uid now, seedTask2 uid now]]
    (applyOps st2 seedOps, t1 ++ t2 ++ seedOps)
  else (st2, t1 ++ t2)

/-- Whether an insert of `d` into collection `c` passes validation: with a
validator installed the document must match it, otherwise (no validator,
or absent collection) every insert is accepted. -/
def insertOk (st : DbState) (c : String) (d : BVal) : Bool :=
  match validatorD st c with
  | some (sch, _, _) => docMatches sch d
  | none => true

/-- Commands that perform no document-level write. -/
def structuralOp : Op → Bool
  | .insertOne _ _ => false
  | .insertMany _ _ => false
  | _ => true

/-- Whether a command can change the installed validator of collection `c`. -/
def touchesValidator : Op → String → Bool
  | .createCollection n _ _ _, c => n = c
  | .collMod n _ _ _, c => n = c
  | _, _ => false

/-- The seeded user document satisfies the users validator. -/
theorem seedUser_matches (uid now : Nat) :
    docMatches usersSchema (seedUser uid now) = true := by
  simp +decide [docMatches, fieldsMatch, fieldMatch, itemsMatch, bsonTypeOf,
    usersSchema, seedUser]

/-- The first seeded task satisfies the tasks validator. -/
theorem seedTask1_matches (uid now : Nat) :
    docMatches tasksSchema (seedTask1 uid now) = true := by
  simp +decide [docMatches, fieldsMatch, fieldMatch, itemsMatch, bsonTypeOf,
    tasksSchema, seedTask1]

/-- The second seeded task satisfies the tasks validator. -/
theorem seedTask2_matches (uid now : Nat) :
    docMatches tasksSchema (seedTask2 uid now) = true := by
  simp +decide [docMatches, fieldsMatch, fieldMatch, itemsMatch, bsonTypeOf,
    tasksSchema, seedTask2]

/-- Looking up after an update: the updated name reads back the new state,
every other name is unaffected. -/
theorem getColl_setColl (st : DbState) (n c : String) (cs : CollState) :
    getColl (setColl st n cs) c = if c = n then some cs else getColl st c := by
  induction st with
  | nil =>
      by_cases h : c = n
      · simp [setColl, getColl, h]
      · simp [setColl, getColl, h, Ne.symm h]
  | cons hd tl ih =>
      obtain ⟨k, v⟩ := hd
      by_cases hk : k = n
      · subst hk
        by_cases h : c = k
        · simp [setColl, getColl, h]
        · simp [setColl, getColl, h, Ne.symm h]
      · by_cases h : c = k
        · subst h
          simp [setColl, getColl, hk, Ne.symm hk]
        · simp [setColl, getColl, hk, h, Ne.symm h, ih]

/-- Writing back the state a name already holds is a no-op. -/
theorem setColl_self (st : DbState) (n : String) (cs : CollState)
    (h : getColl st n = some cs) : setColl st n cs = st := by
  induction st with
  | nil => simp [getColl] at h
  | cons hd tl ih =>
      obtain ⟨k, v⟩ := hd
      by_cases hk : k = n
      · subst hk
        simp [getColl] at h
        simp [setColl, h]
      · simp [getColl, hk] at h
        simp [setColl, hk, ih h]

/-- Structural commands leave every collection's documents unchanged. -/
theorem docsD_applyOp_structural (st : DbState) (op : Op) (c : String)
    (h : structuralOp op = true) : docsD (applyOp st op) c = docsD st c := by
  cases op with
  | createCollection n sch lvl act =>
      cases hg : getColl st n with
      | some cs => simp [applyOp, hg]
      | none =>
          by_cases hc : c = n
          · subst hc; simp [applyOp, hg, docsD, getColl_setColl]
          · simp [applyOp, hg, docsD, getColl_setColl, hc]
  | collMod n sch lvl act =>
      cases hg : getColl st n with
      | some cs =>
          by_cases hc : c = n
          · subst hc; simp [applyOp, hg, docsD, getColl_setColl]
          · simp [applyOp, hg, docsD, getColl_setColl, hc]
      | none => simp [applyOp, hg]
  | createIndex c' keys opts =>
      simp only [applyOp]
      split
      · rfl
      · by_cases hc : c = c'
        · subst hc
          cases hg : getColl st c with
          | some cs => simp [docsD, getColl_setColl, hg]
          | none => simp [docsD, getColl_setColl, hg]
        · simp [docsD, getColl_setColl, hc]
  | insertOne c' d => simp [structuralOp] at h
  | insertMany c' ds => simp [structuralOp] at h

/-- Inserting a document never changes any collection's validator. -/
theorem validatorD_insertDoc (st : DbState) (c' : String) (d : BVal) (c : String) :
    validatorD (insertDoc st c' d).1 c = validatorD st c := by
  simp only [insertDoc]
  cases hg : getColl st c' with
  | none =>
      by_cases hc : c = c'
      · subst hc; simp [validatorD, getColl_setColl, hg]
      · simp [validatorD, getColl_setColl, hc]
  | some cs =>
      by_cases hc : c = c'
      · subst hc
        cases hv : cs.validator with
        | some v =>
            obtain ⟨sch, lvl, act⟩ := v
            by_cases hm : docMatches sch d = true
            · simp [hv, hm, validatorD, getColl_setColl, hg]
            · simp [hv, hm]
        | none => simp [hv, validatorD, getColl_setColl, hg]
      · cases hv : cs.validator with
        | some v =>
            obtain ⟨sch, lvl, act⟩ := v
            by_cases hm : docMatches sch d = true
            · simp [hv, hm, validatorD, getColl_setColl, hc]
            · simp [hv, hm]
        | none => simp [hv, validatorD, getColl_setColl, hc]

/-- A multi-document insert never changes any collection's validator. -/
theorem validatorD_insertMany (st : DbState) (c' : String) (ds : List BVal) (c : String) :
    validatorD (insertManyDocs st c' ds) c = validatorD st c := by
  induction ds generalizing st with
  | nil => simp [insertManyDocs]
  | cons d rest ih =>
      simp only [insertManyDocs]
      split
      · rw [ih, validatorD_insertDoc]
      · exact validatorD_insertDoc st c' d c

/-- A command not aimed at collection `c`'s validator leaves that validator
unchanged (index builds and inserts never install a validator: their
auto-created collections carry none). -/
theorem validatorD_applyOp_untouched (st : DbState) (op : Op) (c : String)
    (h : touchesValidator op c = false) :
    validatorD (applyOp st op) c = validatorD st c := by
  cases op with
  | createCollection n sch lvl act =>
      simp [touchesValidator] at h
      cases hg : getColl st n with
      | some cs => simp [applyOp, hg]
      | none => simp [applyOp, hg, validatorD, getColl_setColl, Ne.symm h]
  | collMod n sch lvl act =>
      simp [touchesValidator] at h
      cases hg : getColl st n with
      | some cs => simp [applyOp, hg, validatorD, getColl_setColl, Ne.symm h]
      | none => simp [applyOp, hg]
  | createIndex c' keys opts =>
      simp only [applyOp]
      split
      · rfl
      · by_cases hc : c = c'
        · subst hc
          cases hg : getColl st c with
          | some cs => simp [validatorD, getColl_setColl, hg]
          | none => simp [validatorD, getColl_setColl, hg]
        · simp [validatorD, getColl_setColl, hc]
  | insertOne c' d => exact validatorD_insertDoc st c' d c
  | insertMany c' ds => exact validatorD_insertMany st c' ds c

/-- Inserting a document never changes any collection's indexes. -/
theorem hasIndex_insertDoc (st : DbState) (c' : String) (d : BVal) (c i : String) :
    hasIndex (insertDoc st c' d).1 c i = hasIndex st c i := by
  simp only [insertDoc]
  cases hg : getColl st c' with
  | none =>
      by_cases hc : c = c'
      · subst hc; simp [hasIndex, getColl_setColl, hg]
      · simp [hasIndex, getColl_setColl, hc]
  | some cs =>
      by_cases hc : c = c'
      · subst hc
        cases hv : cs.validator with
        | some v =>
            obtain ⟨sch, lvl, act⟩ := v
            by_cases hm : docMatches sch d = true
            · simp [hv, hm, hasIndex, getColl_setColl, hg]
            · simp [hv, hm]
        | none => simp [hv, hasIndex, getColl_setColl, hg]
      · cases hv : cs.validator with
        | some v =>
            obtain ⟨sch, lvl, act⟩ := v
            by_cases hm : docMatches sch d = true
            · simp [hv, hm, hasIndex, getColl_setColl, hc]
            · simp [hv, hm]
        | none => simp [hv, hasIndex, getColl_setColl, hc]

/-- A multi-document insert never changes any collection's indexes. -/
theorem hasIndex_insertMany (st : DbState) (c' : String) (ds : List BVal) (c i : String) :
    hasIndex (insertManyDocs st c' ds) c i = hasIndex st c i := by
  induction ds generalizing st with
  | nil => simp [insertManyDocs]
  | cons d rest ih =>
      simp only [insertManyDocs]
      split
      · rw [ih, hasIndex_insertDoc]
      · exact hasIndex_insertDoc st c' d c i

/-- No command ever removes an index: an index present before a command is
present after it. -/
theorem hasIndex_applyOp_mono (st : DbState) (op : Op) (c i : String)
    (h : hasIndex st c i = true) : hasIndex (applyOp st op) c i = true := by
  cases op with
  | createCollection n sch lvl act =>
      cases hg : getColl st n with
      | some cs => simpa [applyOp, hg] using h
      | none =>
          by_cases hc : c = n
          · subst hc; simp [hasIndex, hg] at h
          · simpa [applyOp, hg, hasIndex, getColl_setColl, hc] using h
  | collMod n sch lvl act =>
      cases hg : getColl st n with
      | some cs =>
          by_cases hc : c = n
          · subst hc
            simp [hasIndex, hg] at h
            simp [applyOp, hg, hasIndex, getColl_setColl, h]
          · simpa [applyOp, hg, hasIndex, getColl_setColl, hc] using h
      | none => simpa [applyOp, hg] using h
  | createIndex c' keys opts =>
      simp only [applyOp]
      split
      · exact h
      · by_cases hc : c = c'
        · subst hc
          cases hg : getColl st c with
          | some cs =>
              simp only [hasIndex, hg] at h
              simp [hg, hasIndex, getColl_setColl, List.any_append, h]
          | none => simp [hasIndex, hg] at h
        · simpa [hasIndex, getColl_setColl, hc] using h
  | insertOne c' d => rw [applyOp, hasIndex_insertDoc]; exact h
  | insertMany c' ds => rw [applyOp, hasIndex_insertMany]; exact h

/-- No sequence of commands removes an index. -/
theorem hasIndex_applyOps_mono (ops : List Op) (st : DbState) (c i : String)
    (h : hasIndex st c i = true) : hasIndex (applyOps st ops) c i = true := by
  induction ops generalizing st with
  | nil => exact h
  | cons op rest ih => exact ih (applyOp st op) (hasIndex_applyOp_mono st op c i h)

/-- Building an index installs an index of the effective name on the
target collection. -/
theorem hasIndex_createIndex_self (st : DbState) (c : String)
    (keys : List (String × KeyVal)) (opts : IndexOptions) :
    hasIndex (applyOp st (.createIndex c keys opts)) c
      (jsOr opts.name (indexNameOfKeys keys)) = true := by
  simp only [applyOp]
  split
  · next hb =>
      cases hg : getColl st c with
      | some cs => simpa [hasIndex, hg, Option.getD, hg] using hb
      | none => simp [hg] at hb
  · next hb =>
      cases hg : getColl st c with
      | some cs => simp [hasIndex, getColl_setColl, hg]
      | none => simp [hasIndex, getColl_setColl, hg]

/-- Re-declaring an index whose effective name is already present is a
no-op on the database state. -/
theorem createIndex_noop (st : DbState) (c : String)
    (keys : List (String × KeyVal)) (opts : IndexOptions)
    (h : hasIndex st c (jsOr opts.name (indexNameOfKeys keys)) = true) :
    applyOp st (.createIndex c keys opts) = st := by
  cases hg : getColl st c with
  | some cs =>
      simp [hasIndex, hg] at h
      simp [applyOp, hg, Option.getD, List.any_eq_true, h]
  | none => simp [hasIndex, hg] at h

/-- Updating a validator to the value it already holds is a no-op. -/
theorem collMod_noop (st : DbState) (n : String) (sch : Schema) (lvl act : String)
    (h : validatorD st n = some (sch, lvl, act)) :
    applyOp st (.collMod n sch lvl act) = st := by
  cases hg : getColl st n with
  | some cs =>
      obtain ⟨v, ix, ds⟩ := cs
      simp [validatorD, hg] at h
      simp only [applyOp, hg, h]
      exact setColl_self st n _ (h ▸ hg)
  | none => simp [validatorD, hg] at h

/-- Inserting a document never removes a collection. -/
theorem collExists_insertDoc (st : DbState) (c' : String) (d : BVal) (c : String)
    (h : collExists st c = true) : collExists (insertDoc st c' d).1 c = true := by
  simp only [insertDoc]
  cases hg : getColl st c' with
  | none =>
      by_cases hc : c = c'
      · subst hc; simp [collExists, getColl_setColl]
      · simpa [collExists, getColl_setColl, hc] using h
  | some cs =>
      by_cases hc : c = c'
      · subst hc
        cases hv : cs.validator with
        | some v =>
            obtain ⟨sch, lvl, act⟩ := v
            by_cases hm : docMatches sch d = true
            · simp [hv, hm, collExists, getColl_setColl]
            · simpa [hv, hm] using h
        | none => simp [hv, collExists, getColl_setColl]
      · cases hv : cs.validator with
        | some v =>
            obtain ⟨sch, lvl, act⟩ := v
            by_cases hm : docMatches sch d = true
            · simpa [hv, hm, collExists, getColl_setColl, hc] using h
            · simpa [hv, hm] using h
        | none => simpa [hv, collExists, getColl_setColl, hc] using h

/-- A multi-document insert never removes a collection. -/
theorem collExists_insertMany (st : DbState) (c' : String) (ds : List BVal) (c : String)
    (h : collExists st c = true) : collExists (insertManyDocs st c' ds) c = true := by
  induction ds generalizing st with
  | nil => simpa [insertManyDocs] using h
  | cons d rest ih =>
      simp only [insertManyDocs]
      split
      · exact ih (insertDoc st c' d).1 (collExists_insertDoc st c' d c h)
      · exact collExists_insertDoc st c' d c h

/-- No command removes a collection. -/
theorem collExists_applyOp_mono (st : DbState) (op : Op) (c : String)
    (h : collExists st c = true) : collExists (applyOp st op) c = true := by
  cases op with
  | createCollection n sch lvl act =>
      cases hg : getColl st n with
      | some cs => simpa [applyOp, hg] using h
      | none =>
          by_cases hc : c = n
          · subst hc; simp [collExists, hg] at h
          · simpa [applyOp, hg, collExists, getColl_setColl, hc] using h
  | collMod n sch lvl act =>
      cases hg : getColl st n with
      | some cs =>
          by_cases hc : c = n
          · subst hc; simp [applyOp, hg, collExists, getColl_setColl]
          · simpa [applyOp, hg, collExists, getColl_setColl, hc] using h
      | none => simpa [applyOp, hg] using h
  | createIndex c' keys opts =>
      simp only [applyOp]
      split
      · exact h
      · by_cases hc : c = c'
        · subst hc; simp [collExists, getColl_setColl]
        · simpa [collExists, getColl_setColl, hc] using h
  | insertOne c' d => exact collExists_insertDoc st c' d c h
  | insertMany c' ds => exact collExists_insertMany st c' ds c h

/-- No sequence of commands removes a collection. -/
theorem collExists_applyOps_mono (ops : List Op) (st : DbState) (c : String)
    (h : collExists st c = true) : collExists (applyOps st ops) c = true := by
  induction ops generalizing st with
  | nil => exact h
  | cons op rest ih => exact ih (applyOp st op) (collExists_applyOp_mono st op c h)

/-- Applying a concatenation of command lists applies them in sequence. -/
theorem applyOps_append (st : DbState) (a b : List Op) :
    applyOps st (a ++ b) = applyOps (applyOps st a) b :=
  List.foldl_append _ _ _ _

/-- A sequence of structural commands leaves every collection's documents
unchanged. -/
theorem docsD_applyOps_structural (ops : List Op) (st : DbState) (c : String)
    (h : ∀ op ∈ ops, structuralOp op = true) :
    docsD (applyOps st ops) c = docsD st c := by
  induction ops generalizing st with
  | nil => rfl
  | cons op rest ih =>
      have h1 := docsD_applyOp_structural st op c (h op (List.mem_cons_self op rest))
      have h2 := ih (applyOp st op) (fun o ho => h o (List.mem_cons_of_mem op ho))
      calc docsD (applyOps st (op :: rest)) c
          = docsD (applyOps (applyOp st op) rest) c := rfl
        _ = docsD (applyOp st op) c := h2
        _ = docsD st c := h1

/-- Every command an `ensureCollection` call issues is structural: the
reconciler performs no document-level writes. -/
theorem ensureTrace_structural (st : DbState) (n : String) (sch : Schema)
    (idxs : List IndexSpec) :
    ∀ op ∈ ensureCollectionTrace st n sch idxs, structuralOp op = true := by
  intro op hop
  simp only [ensureCollectionTrace, List.mem_append] at hop
  rcases hop with hv | hi
  · split at hv <;> simp_all [structuralOp]
  · obtain ⟨idx, _, rfl⟩ := List.mem_map.mp hi
    rfl

/-- Replaying an `ensureCollection` trace changes no collection's
documents. -/
theorem docsD_ensureTrace (st0 st : DbState) (n : String) (sch : Schema)
    (idxs : List IndexSpec) (c : String) :
    docsD (applyOps st (ensureCollectionTrace st0 n sch idxs)) c = docsD st c :=
  docsD_applyOps_structural _ st c (ensureTrace_structural st0 n sch idxs)

/-- A sequence of commands none of which is aimed at collection `c`'s
validator leaves that validator unchanged. -/
theorem validatorD_applyOps_untouched (ops : List Op) (st : DbState) (c : String)
    (h : ∀ op ∈ ops, touchesValidator op c = false) :
    validatorD (applyOps st ops) c = validatorD st c := by
  induction ops generalizing st with
  | nil => rfl
  | cons op rest ih =>
      have h1 := validatorD_applyOp_untouched st op c (h op (List.mem_cons_self op rest))
      have h2 := ih (applyOp st op) (fun o ho => h o (List.mem_cons_of_mem op ho))
      calc validatorD (applyOps st (op :: rest)) c
          = validatorD (applyOps (applyOp st op) rest) c := rfl
        _ = validatorD (applyOp st op) c := h2
        _ = validatorD st c := h1

/-- An `ensureCollection` call for collection `n` never touches the
validator of a different collection. -/
theorem ensureTrace_validator_other (st0 st : DbState) (n : String) (sch : Schema)
    (idxs : List IndexSpec) (c : String) (hc : c ≠ n) :
    validatorD (applyOps st (ensureCollectionTrace st0 n sch idxs)) c = validatorD st c := by
  refine validatorD_applyOps_untouched _ st c ?_
  intro op hop
  simp only [ensureCollectionTrace, List.mem_append] at hop
  rcases hop with hv | hi
  · split at hv <;> simp_all [touchesValidator] <;> exact fun hh => hc hh.symm
  · obtain ⟨idx, _, rfl⟩ := List.mem_map.mp hi
    rfl

/-- Replaying an `ensureCollection` trace for `n` on the state it was
computed from installs the declared validator on `n`, with level
`moderate` and action `error`, whether or not `n` already existed. -/
theorem ensure_validator_self (st : DbState) (n : String) (sch : Schema)
    (idxs : List IndexSpec) :
    validatorD (ensureCollection st n sch idxs) n = some (sch, "moderate", "error") := by
  rw [ensureCollection, ensureCollectionTrace, applyOps_append]
  have hmap : ∀ op ∈ idxs.map
      (fun idx => Op.createIndex (indexOpTarget idx n) idx.keys idx.options),
      touchesValidator op n = false := by
    intro op hop
    obtain ⟨idx, _, rfl⟩ := List.mem_map.mp hop
    rfl
  rw [validatorD_applyOps_untouched _ _ _ hmap]
  by_cases hex : collExists st n = true
  · cases hg : getColl st n with
    | some cs =>
        simp [hex, applyOps, applyOp, hg, validatorD, getColl_setColl]
    | none => simp [collExists, hg] at hex
  · cases hg : getColl st n with
    | some cs => simp [collExists, hg] at hex
    | none =>
        simp [hex, applyOps, applyOp, hg, validatorD, getColl_setColl]

/-- After replaying an `ensureCollection` trace for `n` on the state it
was computed from, collection `n` exists. -/
theorem ensure_collExists_self (st : DbState) (n : String) (sch : Schema)
    (idxs : List IndexSpec) :
    collExists (ensureCollection st n sch idxs) n = true := by
  rw [ensureCollection, ensureCollectionTrace, applyOps_append]
  refine collExists_applyOps_mono _ _ _ ?_
  by_cases hex : collExists st n = true
  · cases hg : getColl st n with
    | some cs => simp [hex, applyOps, applyOp, hg, collExists, getColl_setColl]
    | none => simp [collExists, hg] at hex
  · cases hg : getColl st n with
    | some cs => simp [collExists, hg] at hex
    | none => simp [hex, applyOps, applyOp, hg, collExists, getColl_setColl]

/-- Folding the index-creation commands of an index list installs, for
every entry, an index of the entry's effective name on the entry's target
collection. -/
theorem hasIndex_applyOps_indexMap (idxs : List IndexSpec) (n : String)
    (st : DbState) (idx : IndexSpec) (hm : idx ∈ idxs) :
    hasIndex (applyOps st (idxs.map
        (fun i => Op.createIndex (indexOpTarget i n) i.keys i.options)))
      (indexOpTarget idx n) (effIndexName idx) = true := by
  induction idxs generalizing st with
  | nil => simp at hm
  | cons a rest ih =>
      rcases List.mem_cons.mp hm with rfl | hrest
      · have hself := hasIndex_createIndex_self st (indexOpTarget idx n) idx.keys idx.options
        calc hasIndex (applyOps st ((idx :: rest).map
              (fun i => Op.createIndex (indexOpTarget i n) i.keys i.options)))
              (indexOpTarget idx n) (effIndexName idx)
            = hasIndex (applyOps (applyOp st
                (.createIndex (indexOpTarget idx n) idx.keys idx.options))
                (rest.map (fun i => Op.createIndex (indexOpTarget i n) i.keys i.options)))
                (indexOpTarget idx n) (effIndexName idx) := rfl
          _ = true := hasIndex_applyOps_mono _ _ _ _ hself
      · exact ih (applyOp st (.createIndex (indexOpTarget a n) a.keys a.options)) hrest

/-- Replaying an `ensureCollection` trace installs every declared index,
under its effective name, on its target collection. -/
theorem ensure_hasIndex (st : DbState) (n : String) (sch : Schema)
    (idxs : List IndexSpec) (idx : IndexSpec) (hm : idx ∈ idxs) :
    hasIndex (ensureCollection st n sch idxs) (indexOpTarget idx n)
      (effIndexName idx) = true := by
  rw [ensureCollection, ensureCollectionTrace, applyOps_append]
  exact hasIndex_applyOps_indexMap idxs n _ idx hm

/-- The success flag of an insert is exactly the validation verdict. -/
theorem insertDoc_snd (st : DbState) (c : String) (d : BVal) :
    (insertDoc st c d).2 = insertOk st c d := by
  simp only [insertDoc, insertOk, validatorD]
  cases hg : getColl st c with
  | none => simp [hg]
  | some cs =>
      simp only [hg, Option.bind_some]
      cases hv : cs.validator with
      | some v =>
          obtain ⟨sch, lvl, act⟩ := v
          by_cases hm : docMatches sch d = true <;> simp [hv, hm]
      | none => simp [hv]

/-- An accepted insert appends the document to its collection. -/
theorem docsD_insertDoc_self (st : DbState) (c : String) (d : BVal)
    (h : insertOk st c d = true) :
    docsD (insertDoc st c d).1 c = docsD st c ++ [d] := by
  simp only [insertDoc]
  cases hg : getColl st c with
  | none => simp [docsD, getColl_setColl, hg]
  | some cs =>
      cases hv : cs.validator with
      | some v =>
          obtain ⟨sch, lvl, act⟩ := v
          simp [insertOk, validatorD, hg, hv] at h
          simp [hv, h, docsD, getColl_setColl, hg]
      | none => simp [hv, docsD, getColl_setColl, hg]

/-- An insert into one collection leaves every other collection's
documents unchanged. -/
theorem docsD_insertDoc_other (st : DbState) (c : String) (d : BVal) (c' : String)
    (hc : c' ≠ c) : docsD (insertDoc st c d).1 c' = docsD st c' := by
  simp only [insertDoc]
  cases hg : getColl st c with
  | none => simp [docsD, getColl_setColl, hc]
  | some cs =>
      cases hv : cs.validator with
      | some v =>
          obtain ⟨sch, lvl, act⟩ := v
          by_cases hm : docMatches sch d = true
          · simp [hv, hm, docsD, getColl_setColl, hc]
          · simp [hv, hm]
      | none => simp [hv, docsD, getColl_setColl, hc]

/-- Validation verdicts are stable under inserts (inserts never change
validators). -/
theorem insertOk_insertDoc (st : DbState) (c : String) (d' d : BVal) :
    insertOk (insertDoc st c d').1 c d = insertOk st c d := by
  simp only [insertOk, validatorD_insertDoc]

/-- A multi-document insert whose documents all pass validation appends
exactly those documents, in order. -/
theorem docsD_insertMany_self (ds : List BVal) (st : DbState) (c : String)
    (h : ∀ d ∈ ds, insertOk st c d = true) :
    docsD (insertManyDocs st c ds) c = docsD st c ++ ds := by
  induction ds generalizing st with
  | nil => simp [insertManyDocs]
  | cons d rest ih =>
      have hd := h d (List.mem_cons_self d rest)
      simp only [insertManyDocs, insertDoc_snd, hd, if_pos]
      rw [ih (insertDoc st c d).1 (fun x hx => by
        rw [insertOk_insertDoc]; exact h x (List.mem_cons_of_mem d hx))]
      rw [docsD_insertDoc_self st c d hd, List.append_assoc]
      rfl

/-- A multi-document insert leaves every other collection's documents
unchanged. -/
theorem docsD_insertMany_other (ds : List BVal) (st : DbState) (c : String)
    (c' : String) (hc : c' ≠ c) :
    docsD (insertManyDocs st c ds) c' = docsD st c' := by
  induction ds generalizing st with
  | nil => simp [insertManyDocs]
  | cons d rest ih =>
      simp only [insertManyDocs]
      split
      · rw [ih, docsD_insertDoc_other st c d c' hc]
      · exact docsD_insertDoc_other st c d c' hc

/-- The final state of a run is the result of applying the run's trace. -/
theorem runScript_fst (uid now : Nat) (st : DbState) :
    (runScript uid now st).1 = applyOps st (runScript uid now st).2 := by
  simp only [runScript]
  set st1 := applyOps st (ensureCollectionTrace st "users" usersSchema usersIndexes) with hst1
  set st2 := applyOps st1 (ensureCollectionTrace st1 "tasks" tasksSchema tasksIndexes) with hst2
  by_cases h0 : countDocuments st2 "users" = 0
  · simp only [if_pos h0]
    rw [applyOps_append, applyOps_append, ← hst1, ← hst2]
  · simp only [if_neg h0]
    rw [applyOps_append, ← hst1, ← hst2]

/-- Both ensure phases leave every collection's documents, and hence all
counts, unchanged; and they install the two validators. -/
theorem ensures_docsD (st : DbState) (c : String) :
    docsD (applyOps
        (applyOps st (ensureCollectionTrace st "users" usersSchema usersIndexes))
        (ensureCollectionTrace
          (applyOps st (ensureCollectionTrace st "users" usersSchema usersIndexes))
          "tasks" tasksSchema tasksIndexes)) c = docsD st c := by
  rw [docsD_ensureTrace, docsD_ensureTrace]

/-- After the two ensure phases the users validator is installed. -/
theorem ensures_validator_users (st : DbState) :
    validatorD (applyOps
        (applyOps st (ensureCollectionTrace st "users" usersSchema usersIndexes))
        (ensureCollectionTrace
          (applyOps st (ensureCollectionTrace st "users" usersSchema usersIndexes))
          "tasks" tasksSchema tasksIndexes)) "users"
      = some (usersSchema, "moderate", "error") := by
  rw [ensureTrace_validator_other _ _ _ _ _ _ (by decide)]
  exact ensure_validator_self st "users" usersSchema usersIndexes

/-- After the two ensure phases the tasks validator is installed. -/
theorem ensures_validator_tasks (st : DbState) :
    validatorD (applyOps
        (applyOps st (ensureCollectionTrace st "users" usersSchema usersIndexes))
        (ensureCollectionTrace
          (applyOps st (ensureCollectionTrace st "users" usersSchema usersIndexes))
          "tasks" tasksSchema tasksIndexes)) "tasks"
      = some (tasksSchema, "moderate", "error") :=
  ensure_validator_self _ "tasks" tasksSchema tasksIndexes

/-- Characterization of the documents after one run: every collection
keeps its documents, and exactly when the `users` collection counted zero
documents, the seed user is appended to `users` and the two seed tasks to
`tasks`. -/
theorem runScript_docsD (uid now : Nat) (st : DbState) (c : String) :
    docsD (runScript uid now st).1 c =
      docsD st c ++
        (if countDocuments st "users" = 0 then
           (if c = "users" then [seedUser uid now]
            else if c = "tasks" then [seedTask1 uid now, seedTask2 uid now]
            else [])
         else []) := by
  simp only [runScript]
  set st1 := applyOps st (ensureCollectionTrace st "users" usersSchema usersIndexes) with hst1
  set st2 := applyOps st1 (ensureCollectionTrace st1 "tasks" tasksSchema tasksIndexes) with hst2
  have hd2 : ∀ c', docsD st2 c' = docsD st c' := by
    intro c'
    rw [hst2, hst1]
    exact ensures_docsD st c'
  have hc2 : countDocuments st2 "users" = countDocuments st "users" := by
    simp only [countDocuments, hd2]
  have hvu2 : validatorD st2 "users" = some (usersSchema, "moderate", "error") := by
    rw [hst2, hst1]; exact ensures_validator_users st
  have hvt2 : validatorD st2 "tasks" = some (tasksSchema, "moderate", "error") := by
    rw [hst2, hst1]; exact ensures_validator_tasks st
  rw [hc2]
  by_cases h0 : countDocuments st "users" = 0
  · simp only [if_pos h0]
    have happ : applyOps st2 [Op.insertOne "users" (seedUser uid now),
        Op.insertMany "tasks" [seedTask1 uid now, seedTask2 uid now]]
        = insertManyDocs (insertDoc st2 "users" (seedUser uid now)).1 "tasks"
            [seedTask1 uid now, seedTask2 uid now] := rfl
    have hok_u : insertOk st2 "users" (seedUser uid now) = true := by
      simp [insertOk, hvu2, seedUser_matches]
    have hvt3 : validatorD (insertDoc st2 "users" (seedUser uid now)).1 "tasks"
        = some (tasksSchema, "moderate", "error") := by
      rw [validatorD_insertDoc, hvt2]
    have hok_t : ∀ d ∈ [seedTask1 uid now, seedTask2 uid now],
        insertOk (insertDoc st2 "users" (seedUser uid now)).1 "tasks" d = true := by
      intro d hd
      rcases List.mem_cons.mp hd with rfl | hd
      · simp [insertOk, hvt3, seedTask1_matches]
      · rcases List.mem_cons.mp hd with rfl | hd
        · simp [insertOk, hvt3, seedTask2_matches]
        · simp at hd
    by_cases hcu : c = "users"
    · subst hcu
      simp only [happ]
      rw [docsD_insertMany_other _ _ _ _ (by decide)]
      rw [docsD_insertDoc_self _ _ _ hok_u, hd2]
      simp
    · by_cases hct : c = "tasks"
      · subst hct
        simp only [happ]
        rw [docsD_insertMany_self _ _ _ hok_t]
        rw [docsD_insertDoc_other _ _ _ _ (by decide), hd2]
        simp
      · simp only [happ]
        rw [docsD_insertMany_other _ _ _ _ hct]
        rw [docsD_insertDoc_other _ _ _ _ hcu, hd2]
        simp [hcu, hct]
  · simp only [if_neg h0]
    rw [hd2]
    simp

/-- After one run the `users` collection is never empty: either it was
already non-empty, or the seed user has just been inserted. -/
theorem runScript_users_nonempty (uid now : Nat) (st : DbState) :
    countDocuments (runScript uid now st).1 "users" ≠ 0 := by
  have h := runScript_docsD uid now st "users"
  by_cases h0 : countDocuments st "users" = 0
  · simp [countDocuments, h, h0]
  · simp only [countDocuments, h, if_neg h0]
    simp only [countDocuments] at h0
    simp [h0]

/-- Both validators are installed after one run. -/
theorem runScript_validator (uid now : Nat) (st : DbState) :
    validatorD (runScript uid now st).1 "users" = some (usersSchema, "moderate", "error") ∧
    validatorD (runScript uid now st).1 "tasks" = some (tasksSchema, "moderate", "error") := by
  simp only [runScript]
  set st1 := applyOps st (ensureCollectionTrace st "users" usersSchema usersIndexes) with hst1
  set st2 := applyOps st1 (ensureCollectionTrace st1 "tasks" tasksSchema tasksIndexes) with hst2
  have hvu2 : validatorD st2 "users" = some (usersSchema, "moderate", "error") := by
    rw [hst2, hst1]; exact ensures_validator_users st
  have hvt2 : validatorD st2 "tasks" = some (tasksSchema, "moderate", "error") := by
    rw [hst2, hst1]; exact ensures_validator_tasks st
  by_cases h0 : countDocuments st2 "users" = 0
  · simp only [if_pos h0]
    constructor
    · show validatorD (insertManyDocs (insertDoc st2 "users" (seedUser uid now)).1
        "tasks" [seedTask1 uid now, seedTask2 uid now]) "users" = _
      rw [validatorD_insertMany, validatorD_insertDoc, hvu2]
    · show validatorD (insertManyDocs (insertDoc st2 "users" (seedUser uid now)).1
        "tasks" [seedTask1 uid now, seedTask2 uid now]) "tasks" = _
      rw [validatorD_insertMany, validatorD_insertDoc, hvt2]
  · simp only [if_neg h0]
    exact ⟨hvu2, hvt2⟩

/-- Every index of the two fixed configurations is present, on its own
collection and under its declared name, after one run. -/
theorem runScript_hasIndex (uid now : Nat) (st : DbState) :
    (∀ idx ∈ usersIndexes,
      hasIndex (runScript uid now st).1 "users" (effIndexName idx) = true) ∧
    (∀ idx ∈ tasksIndexes,
      hasIndex (runScript uid now st).1 "tasks" (effIndexName idx) = true) := by
  have htu : ∀ idx ∈ usersIndexes, indexOpTarget idx "users" = "users" := by decide
  have htt : ∀ idx ∈ tasksIndexes, indexOpTarget idx "tasks" = "tasks" := by decide
  simp only [runScript]
  set st1 := applyOps st (ensureCollectionTrace st "users" usersSchema usersIndexes) with hst1
  set st2 := applyOps st1 (ensureCollectionTrace st1 "tasks" tasksSchema tasksIndexes) with hst2
  have hu2 : ∀ idx ∈ usersIndexes, hasIndex st2 "users" (effIndexName idx) = true := by
    intro idx hm
    have h1 : hasIndex st1 "users" (effIndexName idx) = true := by
      have := ensure_hasIndex st "users" usersSchema usersIndexes idx hm
      rwa [htu idx hm] at this
    rw [hst2]
    exact hasIndex_applyOps_mono _ _ _ _ h1
  have ht2 : ∀ idx ∈ tasksIndexes, hasIndex st2 "tasks" (effIndexName idx) = true := by
    intro idx hm
    have := ensure_hasIndex st1 "tasks" tasksSchema tasksIndexes idx hm
    rwa [htt idx hm] at this
  by_cases h0 : countDocuments st2 "users" = 0
  · simp only [if_pos h0]
    constructor
    · intro idx hm
      show hasIndex (insertManyDocs (insertDoc st2 "users" (seedUser uid now)).1
        "tasks" [seedTask1 uid now, seedTask2 uid now]) "users" (effIndexName idx) = true
      rw [hasIndex_insertMany, hasIndex_insertDoc]
      exact hu2 idx hm
    · intro idx hm
      show hasIndex (insertManyDocs (insertDoc st2 "users" (seedUser uid now)).1
        "tasks" [seedTask1 uid now, seedTask2 uid now]) "tasks" (effIndexName idx) = true
      rw [hasIndex_insertMany, hasIndex_insertDoc]
      exact ht2 idx hm
  · simp only [if_neg h0]
    exact ⟨hu2, ht2⟩

/-- A collection with an installed validator exists. -/
theorem collExists_of_validatorD (st : DbState) (c : String)
    (v : Schema × String × String) (h : validatorD st c = some v) :
    collExists st c = true := by
  unfold validatorD at h
  cases hg : getColl st c with
  | none => rw [hg] at h; simp at h
  | some cs => simp [collExists, hg]

/-- Re-issuing the index-creation commands of an index list whose indexes
are all already present changes nothing. -/
theorem applyOps_indexMap_noop (n : String) (st : DbState) (idxs : List IndexSpec)
    (h : ∀ idx ∈ idxs, hasIndex st (indexOpTarget idx n) (effIndexName idx) = true) :
    applyOps st (idxs.map
      (fun i => Op.createIndex (indexOpTarget i n) i.keys i.options)) = st := by
  induction idxs with
  | nil => rfl
  | cons a rest ih =>
      have ha : applyOp st (.createIndex (indexOpTarget a n) a.keys a.options) = st :=
        createIndex_noop st _ a.keys a.options (h a (List.mem_cons_self a rest))
      calc applyOps st ((a :: rest).map
            (fun i => Op.createIndex (indexOpTarget i n) i.keys i.options))
          = applyOps (applyOp st (.createIndex (indexOpTarget a n) a.keys a.options))
              (rest.map (fun i => Op.createIndex (indexOpTarget i n) i.keys i.options)) := rfl
        _ = applyOps st (rest.map
              (fun i => Op.createIndex (indexOpTarget i n) i.keys i.options)) := by rw [ha]
        _ = st := ih (fun i hi => h i (List.mem_cons_of_mem a hi))

/-- Replaying an `ensureCollection` trace on a state on which the
collection exists with the declared validator installed and all declared
indexes present changes nothing. -/
theorem ensure_noop (st : DbState) (n : String) (sch : Schema) (idxs : List IndexSpec)
    (hex : collExists st n = true)
    (hv : validatorD st n = some (sch, "moderate", "error"))
    (hidx : ∀ idx ∈ idxs, hasIndex st (indexOpTarget idx n) (effIndexName idx) = true) :
    applyOps st (ensureCollectionTrace st n sch idxs) = st := by
  rw [ensureCollectionTrace]
  simp only [hex, if_true]
  rw [applyOps_append]
  have h1 : applyOps st [Op.collMod n sch "moderate" "error"] = st := by
    show applyOp st (.collMod n sch "moderate" "error") = st
    exact collMod_noop st n sch "moderate" "error" hv
  rw [h1]
  exact applyOps_indexMap_noop n st idxs hidx

/-- A run starting from a state that already carries both validators, all
eight declared indexes, and a non-empty `users` collection changes
nothing. -/
theorem runScript_noop (uid now : Nat) (st : DbState)
    (hvu : validatorD st "users" = some (usersSchema, "moderate", "error"))
    (hvt : validatorD st "tasks" = some (tasksSchema, "moderate", "error"))
    (hiu : ∀ idx ∈ usersIndexes, hasIndex st "users" (effIndexName idx) = true)
    (hit : ∀ idx ∈ tasksIndexes, hasIndex st "tasks" (effIndexName idx) = true)
    (hcnt : countDocuments st "users" ≠ 0) :
    (runScript uid now st).1 = st := by
  have htu : ∀ idx ∈ usersIndexes, indexOpTarget idx "users" = "users" := by decide
  have htt : ∀ idx ∈ tasksIndexes, indexOpTarget idx "tasks" = "tasks" := by decide
  have e1 : applyOps st (ensureCollectionTrace st "users" usersSchema usersIndexes) = st := by
    refine ensure_noop st "users" usersSchema usersIndexes
      (collExists_of_validatorD st "users" _ hvu) hvu ?_
    intro idx hm
    rw [htu idx hm]
    exact hiu idx hm
  have e2 : applyOps st (ensureCollectionTrace st "tasks" tasksSchema tasksIndexes) = st := by
    refine ensure_noop st "tasks" tasksSchema tasksIndexes
      (collExists_of_validatorD st "tasks" _ hvt) hvt ?_
    intro idx hm
    rw [htt idx hm]
    exact hit idx hm
  simp only [runScript, e1, e2, if_neg hcnt]

/-- If any field of an object fails its field check, the whole object
fails the field pass. -/
theorem fieldsMatch_eq_false (props : List (String × Schema)) (addl : Option Bool)
    (fields : List (String × BVal)) (kv : String × BVal) (hm : kv ∈ fields)
    (hf : fieldMatch props addl kv.1 kv.2 = false) :
    fieldsMatch props addl fields = false := by
  induction fields with
  | nil => simp at hm
  | cons a rest ih =>
      rcases List.mem_cons.mp hm with rfl | hr
      · simp [fieldsMatch, hf]
      · simp [fieldsMatch, ih hr]

/-- An object one of whose fields fails its field check fails the whole
schema. -/
theorem docMatches_obj_false (bt : List BsonType) (req : List String)
    (addl : Option Bool) (props : List (String × Schema))
    (minL maxL : Option Nat) (en : Option (List String)) (items : Option Schema)
    (fields : List (String × BVal)) (kv : String × BVal) (hm : kv ∈ fields)
    (hf : fieldMatch props addl kv.1 kv.2 = false) :
    docMatches (.mk bt req addl props minL maxL en items) (.obj fields) = false := by
  have hfm := fieldsMatch_eq_false props addl fields kv hm hf
  simp [docMatches, hfm]

/-- Unpacking a successful field lookup. -/
theorem getField_some (doc : BVal) (k : String) (v : BVal)
    (h : getField doc k = some v) :
    ∃ fields kv, doc = .obj fields ∧ kv ∈ fields ∧ kv.1 = k ∧ kv.2 = v := by
  cases doc with
  | obj fields =>
      simp only [getField, Option.map_eq_some'] at h
      obtain ⟨kv, hfind, hv⟩ := h
      refine ⟨fields, kv, rfl, List.mem_of_find?_eq_some hfind, ?_, hv⟩
      have := List.find?_some hfind
      simpa using this
  | objectId n => simp [getField] at h
  | str s => simp [getField] at h
  | date t => simp [getField] at h
  | bool b => simp [getField] at h
  | null => simp [getField] at h
  | int i => simp [getField] at h
  | array xs => simp [getField] at h

/-- A document whose `status` field is a string outside the allowed
enumeration fails the tasks validator. -/
theorem tasksSchema_rejects_bad_status (doc : BVal) (s : String)
    (h : getField doc "status" = some (.str s))
    (hs : s ∉ ["todo", "in_progress", "done", "archived"]) :
    docMatches tasksSchema doc = false := by
  obtain ⟨fields, kv, rfl, hmem, hk, hv⟩ := getField_some doc "status" (.str s) h
  unfold tasksSchema
  refine docMatches_obj_false _ _ _ _ _ _ _ _ fields kv hmem ?_
  rw [hk, hv]
  simp only [fieldMatch, docMatches, bsonTypeOf]
  simpa using hs

/-- A document whose `email` field is a string shorter than 5 characters
fails the users validator. -/
theorem usersSchema_rejects_short_email (doc : BVal) (s : String)
    (h : getField doc "email" = some (.str s)) (hlen : s.length < 5) :
    docMatches usersSchema doc = false := by
  obtain ⟨fields, kv, rfl, hmem, hk, hv⟩ := getField_some doc "email" (.str s) h
  unfold usersSchema
  refine docMatches_obj_false _ _ _ _ _ _ _ _ fields kv hmem ?_
  rw [hk, hv]
  simp [fieldMatch, docMatches, bsonTypeOf, Nat.not_le.mpr hlen]

/-- An object with no `title` field fails the tasks validator (`title` is
required). -/
theorem tasksSchema_rejects_missing_title (fields : List (String × BVal))
    (h : ∀ kv ∈ fields, kv.1 ≠ "title") :
    docMatches tasksSchema (.obj fields) = false := by
  have hany : (fields.any (fun kv => kv.1 == "title")) = false := by
    simp only [List.any_eq_false]
    intro kv hkv
    simpa using h kv hkv
  unfold tasksSchema
  simp [docMatches, hany]

/-- With a validator installed, an insert of a non-conforming document is
rejected and leaves the state unchanged. -/
theorem insertDoc_rejected (st : DbState) (c : String) (d : BVal) (sch : Schema)
    (lvl act : String) (hv : validatorD st c = some (sch, lvl, act))
    (hm : docMatches sch d = false) : insertDoc st c d = (st, false) := by
  unfold validatorD at hv
  cases hg : getColl st c with
  | none => rw [hg] at hv; simp at hv
  | some cs =>
      rw [hg] at hv
      have hv' : cs.validator = some (sch, lvl, act) := by simpa using hv
      simp [insertDoc, hg, hv', hm]

/-- For an index list none of whose entries sets the `collection` option,
every index-creation command of the trace targets the `name` argument of
the `ensureCollection` call. -/
theorem ensureTrace_collection_none (st : DbState) (n : String) (sch : Schema)
    (idxs : List IndexSpec) (h : ∀ idx ∈ idxs, idx.options.collection = none) :
    ensureCollectionTrace st n sch idxs =
      (if collExists st n then [Op.collMod n sch "moderate" "error"]
       else [Op.createCollection n sch "moderate" "error"]) ++
      idxs.map (fun idx => Op.createIndex n idx.keys idx.options) := by
  unfold ensureCollectionTrace
  congr 1
  apply List.map_congr_left
  intro idx hm
  simp [indexOpTarget, jsOr, h idx hm]

/-- C10: every seed document the script inserts satisfies the validator
schema the script itself installs on that document's collection: after any
run the users/tasks validators are `usersSchema`/`tasksSchema` (level
`moderate`, action `error`), the seeded user matches `usersSchema`, and
both seeded tasks match `tasksSchema` (hence all required fields, string
length bounds, status enumeration and checklist item shapes hold). -/
theorem claim10_seeds_satisfy_installed_validators (uid now : Nat) (st : DbState) :
    validatorD (runScript uid now st).1 "users" = some (usersSchema, "moderate", "error") ∧
    validatorD (runScript uid now st).1 "tasks" = some (tasksSchema, "moderate", "error") ∧
    docMatches usersSchema (seedUser uid now) = true ∧
    docMatches tasksSchema (seedTask1 uid now) = true ∧
    docMatches tasksSchema (seedTask2 uid now) = true :=
  ⟨(runScript_validator uid now st).1, (runScript_validator uid now st).2,
   seedUser_matches uid now, seedTask1_matches uid now, seedTask2_matches uid now⟩

/-- C4: starting from an empty database, one run leaves `users` with
exactly the one seeded document and `tasks` with exactly the two seeded
documents; both seeded tasks have `isDeleted = false` and their `ownerId`
equals the seeded user's `_id` (the identity `uid` minted once and reused). -/
theorem claim4_empty_database_run (uid now : Nat) :
    countDocuments (runScript uid now []).1 "users" = 1 ∧
    countDocuments (runScript uid now []).1 "tasks" = 2 ∧
    docsD (runScript uid now []).1 "users" = [seedUser uid now] ∧
    docsD (runScript uid now []).1 "tasks" = [seedTask1 uid now, seedTask2 uid now] ∧
    getField (seedTask1 uid now) "isDeleted" = some (.bool false) ∧
    getField (seedTask2 uid now) "isDeleted" = some (.bool false) ∧
    getField (seedTask1 uid now) "ownerId" = getField (seedUser uid now) "_id" ∧
    getField (seedTask2 uid now) "ownerId" = getField (seedUser uid now) "_id" := by
  have hu := runScript_docsD uid now [] "users"
  have ht := runScript_docsD uid now [] "tasks"
  have h0 : countDocuments ([] : DbState) "users" = 0 := rfl
  rw [h0] at hu ht
  simp only [if_pos rfl] at hu ht
  have hu' : docsD (runScript uid now []).1 "users" = [seedUser uid now] := by
    rw [hu]
    simp [docsD, getColl]
  have ht' : docsD (runScript uid now []).1 "tasks"
      = [seedTask1 uid now, seedTask2 uid now] := by
    rw [ht]
    simp [docsD, getColl]
  refine ⟨?_, ?_, hu', ht', rfl, rfl, rfl, rfl⟩
  · simp only [countDocuments, hu']
    rfl
  · simp only [countDocuments, ht']
    rfl

/-- C5: `ensureCollection` creates an absent collection with the given
schema as validator at level `moderate` and action `error`, and for a
present collection applies the same validator via `collMod`; in both
cases the declared validator ends up installed, no collection's documents
change, and no existing collection is dropped. -/
theorem claim5_ensure_validator_behavior (st : DbState) (n : String) (sch : Schema)
    (idxs : List IndexSpec) :
    (collExists st n = false →
      (ensureCollectionTrace st n sch idxs).head? =
        some (.createCollection n sch "moderate" "error")) ∧
    (collExists st n = true →
      (ensureCollectionTrace st n sch idxs).head? =
        some (.collMod n sch "moderate" "error")) ∧
    validatorD (ensureCollection st n sch idxs) n = some (sch, "moderate", "error") ∧
    (∀ c, docsD (ensureCollection st n sch idxs) c = docsD st c) ∧
    (∀ c, collExists st c = true → collExists (ensureCollection st n sch idxs) c = true) := by
  refine ⟨?_, ?_, ensure_validator_self st n sch idxs, ?_, ?_⟩
  · intro h; simp [ensureCollectionTrace, h]
  · intro h; simp [ensureCollectionTrace, h]
  · intro c; exact docsD_ensureTrace st st n sch idxs c
  · intro c h; exact collExists_applyOps_mono _ st c h

/-- Witness for C5 at concrete states: an absent `users` is created, a
present `users` is `collMod`-ed, and an unrelated collection survives. -/
theorem claim5_witness :
    (ensureCollectionTrace [] "users" usersSchema usersIndexes).head? =
      some (.createCollection "users" usersSchema "moderate" "error") ∧
    (ensureCollectionTrace [("users", (⟨none, [], []⟩ : CollState))]
        "users" usersSchema usersIndexes).head? =
      some (.collMod "users" usersSchema "moderate" "error") ∧
    collExists (ensureCollection [("x", (⟨none, [], []⟩ : CollState))]
        "users" usersSchema usersIndexes) "x" = true :=
  ⟨(claim5_ensure_validator_behavior [] "users" usersSchema usersIndexes).1 rfl,
   (claim5_ensure_validator_behavior [("users", ⟨none, [], []⟩)]
      "users" usersSchema usersIndexes).2.1 rfl,
   (claim5_ensure_validator_behavior [("x", ⟨none, [], []⟩)]
      "users" usersSchema usersIndexes).2.2.2.2 "x" rfl⟩

/-- C6: within one `ensureCollection` call the validator command comes
strictly before every `createIndex` command, and re-declaring an index
that already exists is a no-op, so a re-invocation never fails merely
because earlier ensured indexes already exist. -/
theorem claim6_validator_before_indexes (st : DbState) (n : String) (sch : Schema)
    (idxs : List IndexSpec) :
    (∃ vop, ensureCollectionTrace st n sch idxs =
        vop :: idxs.map (fun idx => Op.createIndex (indexOpTarget idx n) idx.keys idx.options) ∧
      (vop = Op.createCollection n sch "moderate" "error" ∨
       vop = Op.collMod n sch "moderate" "error")) ∧
    (∀ (st' : DbState) (c : String) (keys : List (String × KeyVal)) (opts : IndexOptions),
      hasIndex st' c (jsOr opts.name (indexNameOfKeys keys)) = true →
      applyOp st' (.createIndex c keys opts) = st') := by
  constructor
  · by_cases h : collExists st n = true
    · exact ⟨_, by simp [ensureCollectionTrace, h], Or.inr rfl⟩
    · exact ⟨_, by simp [ensureCollectionTrace, h], Or.inl rfl⟩
  · intro st' c keys opts h
    exact createIndex_noop st' c keys opts h

/-- Witness for C6: re-declaring the present index `i` on collection `c`
leaves the concrete state unchanged. -/
theorem claim6_witness :
    applyOp [("c", (⟨none, [("i", ([("a", KeyVal.asc)], ({ name := some "i" } : IndexOptions)))],
        []⟩ : CollState))]
      (.createIndex "c" [("a", KeyVal.asc)] { name := some "i" }) =
    [("c", (⟨none, [("i", ([("a", KeyVal.asc)], ({ name := some "i" } : IndexOptions)))],
        []⟩ : CollState))] :=
  (claim6_validator_before_indexes [] "x" usersSchema []).2
    _ "c" [("a", KeyVal.asc)] { name := some "i" } (by decide)

/-- Counterexample to C1: in a database whose `users` collection exists
and is empty while `tasks` already holds one document, the run inserts the
two seed tasks into the non-empty `tasks` collection — the tasks seeding
is not guarded by the tasks count. -/
theorem claim1_counterexample :
    countDocuments [("users", (⟨none, [], []⟩ : CollState)),
        ("tasks", (⟨none, [], [BVal.obj []]⟩ : CollState))] "tasks" ≠ 0 ∧
    docsD (runScript 1 0 [("users", (⟨none, [], []⟩ : CollState)),
        ("tasks", (⟨none, [], [BVal.obj []]⟩ : CollState))]).1 "tasks"
      = [BVal.obj [], seedTask1 1 0, seedTask2 1 0] := by
  constructor
  · decide
  · rw [runScript_docsD 1 0 _ "tasks"]
    simp [countDocuments, docsD, getColl]

/-- C1 (amended): the two task seed documents are inserted if and only if
the `users` collection counts zero documents at the check (the single
guard of line 181 covers both the user seed and the task seed); since a
run always leaves `users` non-empty, a re-run inserts no further task
documents. -/
theorem claim1_amended_users_guard (st : DbState) (uid now uid2 now2 : Nat) :
    docsD (runScript uid now st).1 "tasks" =
      docsD st "tasks" ++
        (if countDocuments st "users" = 0 then [seedTask1 uid now, seedTask2 uid now]
         else []) ∧
    docsD (runScript uid2 now2 (runScript uid now st).1).1 "tasks" =
      docsD (runScript uid now st).1 "tasks" := by
  constructor
  · have h := runScript_docsD uid now st "tasks"
    rw [h]
    by_cases h0 : countDocuments st "users" = 0 <;> simp [h0]
  · have h := runScript_docsD uid2 now2 (runScript uid now st).1 "tasks"
    rw [h, if_neg (runScript_users_nonempty uid now st)]
    simp

/-- C2: the reconciliation script is idempotent — a second run from the
state a first run produced returns that state unchanged, regardless of
the identities and timestamps minted in either run. -/
theorem claim2_idempotent (st : DbState) (uid1 now1 uid2 now2 : Nat) :
    (runScript uid2 now2 (runScript uid1 now1 st).1).1 = (runScript uid1 now1 st).1 :=
  runScript_noop uid2 now2 (runScript uid1 now1 st).1
    (runScript_validator uid1 now1 st).1
    (runScript_validator uid1 now1 st).2
    (runScript_hasIndex uid1 now1 st).1
    (runScript_hasIndex uid1 now1 st).2
    (runScript_users_nonempty uid1 now1 st)

/-- Counterexample to C3: an index entry whose options set a `collection`
different from the `name` argument makes `ensureCollection` issue the
`createIndex` on that other collection, not on the collection named by
the `name` argument. -/
theorem claim3_counterexample :
    ensureCollectionTrace [] "c" tasksSchema
        [⟨[("a", KeyVal.asc)], { name := some "i", collection := some "other" }⟩] =
      [Op.createCollection "c" tasksSchema "moderate" "error",
       Op.createIndex "other" [("a", KeyVal.asc)]
         { name := some "i", collection := some "other" }] ∧
    "other" ≠ "c" := by
  constructor
  · simp [ensureCollectionTrace, collExists, getColl, indexOpTarget, effIndexName,
      jsOr, indexNameOfKeys]
  · decide

/-- C3 (amended): for every entry whose options do not set the
`collection` fallback — in particular every entry of the fixed users and
tasks index configurations — `ensureCollection` issues the `createIndex`
with exactly the entry's declared keys and options on the collection
named by the `name` argument, despite the local shadowing of `name`. -/
theorem claim3_amended_no_collection_option (st : DbState) (n : String)
    (sch : Schema) (idxs : List IndexSpec)
    (h : ∀ idx ∈ idxs, idx.options.collection = none) :
    ensureCollectionTrace st n sch idxs =
      (if collExists st n then [Op.collMod n sch "moderate" "error"]
       else [Op.createCollection n sch "moderate" "error"]) ++
      idxs.map (fun idx => Op.createIndex n idx.keys idx.options) :=
  ensureTrace_collection_none st n sch idxs h

/-- Witness for C3 (amended) at the fixed users configuration: every
users index command targets the `users` collection with the declared keys
and options. -/
theorem claim3_witness :
    ensureCollectionTrace [] "users" usersSchema usersIndexes =
      (if collExists ([] : DbState) "users"
        then [Op.collMod "users" usersSchema "moderate" "error"]
        else [Op.createCollection "users" usersSchema "moderate" "error"]) ++
      usersIndexes.map (fun idx => Op.createIndex "users" idx.keys idx.options) :=
  claim3_amended_no_collection_option [] "users" usersSchema usersIndexes (by decide)

/-- Cons form of `ensureTrace_collection_none`: the validator command
followed by the index commands. -/
theorem ensureTrace_collection_none_cons (st : DbState) (n : String) (sch : Schema)
    (idxs : List IndexSpec) (h : ∀ idx ∈ idxs, idx.options.collection = none) :
    ensureCollectionTrace st n sch idxs =
      (if collExists st n then Op.collMod n sch "moderate" "error"
       else Op.createCollection n sch "moderate" "error") ::
      idxs.map (fun idx => Op.createIndex n idx.keys idx.options) := by
  rw [ensureTrace_collection_none st n sch idxs h]
  split <;> rfl

/-- Counterexample to C7: with `users` absent (hence counting zero) and
`tasks` already holding two documents, the run still inserts the two seed
tasks — there is no separate "seed tasks if tasks is empty" phase. -/
theorem claim7_counterexample :
    countDocuments [("tasks", (⟨none, [], [BVal.obj [], BVal.obj []]⟩ : CollState))]
      "tasks" = 2 ∧
    countDocuments (runScript 1 0
      [("tasks", (⟨none, [], [BVal.obj [], BVal.obj []]⟩ : CollState))]).1 "tasks" = 4 := by
  constructor
  · decide
  · rw [countDocuments, runScript_docsD 1 0 _ "tasks"]
    simp [countDocuments, docsD, getColl]

/-- C7 (amended): every run issues, in this order, the `users` validator
command, the three `users` index commands, the `tasks` validator command,
the five `tasks` index commands, and then — under the single users-empty
guard — the user seed insert followed by the task seed insert; so the
user seed document always precedes the task seed documents in the run. -/
theorem claim7_amended_single_guard (st : DbState) (uid now : Nat) :
    ∃ vu vt,
      (runScript uid now st).2 =
        (vu :: usersIndexes.map (fun idx => Op.createIndex "users" idx.keys idx.options)) ++
        (vt :: tasksIndexes.map (fun idx => Op.createIndex "tasks" idx.keys idx.options)) ++
        (if countDocuments st "users" = 0 then
           [Op.insertOne "users" (seedUser uid now),
            Op.insertMany "tasks" [seedTask1 uid now, seedTask2 uid now]]
         else []) ∧
      (vu = Op.createCollection "users" usersSchema "moderate" "error" ∨
       vu = Op.collMod "users" usersSchema "moderate" "error") ∧
      (vt = Op.createCollection "tasks" tasksSchema "moderate" "error" ∨
       vt = Op.collMod "tasks" tasksSchema "moderate" "error") := by
  simp only [runScript]
  set st1 := applyOps st (ensureCollectionTrace st "users" usersSchema usersIndexes) with hst1
  set st2 := applyOps st1 (ensureCollectionTrace st1 "tasks" tasksSchema tasksIndexes) with hst2
  have hc2 : countDocuments st2 "users" = countDocuments st "users" := by
    simp only [countDocuments]
    rw [hst2, hst1, ensures_docsD]
  have e1 := ensureTrace_collection_none_cons st "users" usersSchema usersIndexes (by decide)
  have e2 := ensureTrace_collection_none_cons st1 "tasks" tasksSchema tasksIndexes (by decide)
  refine ⟨if collExists st "users" then Op.collMod "users" usersSchema "moderate" "error"
           else Op.createCollection "users" usersSchema "moderate" "error",
          if collExists st1 "tasks" then Op.collMod "tasks" tasksSchema "moderate" "error"
           else Op.createCollection "tasks" tasksSchema "moderate" "error", ?_, ?_, ?_⟩
  · rw [← hc2]
    by_cases h0 : countDocuments st2 "users" = 0
    · simp only [if_pos h0]
      rw [e1, e2]
    · simp only [if_neg h0]
      rw [e1, e2]
      simp
  · by_cases h : collExists st "users" = true
    · exact Or.inr (by simp [h])
    · exact Or.inl (by simp [h])
  · by_cases h : collExists st1 "tasks" = true
    · exact Or.inr (by simp [h])
    · exact Or.inl (by simp [h])

/-- C8: under the validators the script installs, a task document whose
`status` is a string outside the allowed enumeration, a user document
whose `email` is shorter than 5 characters, and a task document missing
the `title` field are each rejected on insert, leaving the state
unchanged. -/
theorem claim8_validator_enforcement :
    (∀ (st : DbState) (doc : BVal) (s : String),
      getField doc "status" = some (.str s) →
      s ∉ ["todo", "in_progress", "done", "archived"] →
      validatorD st "tasks" = some (tasksSchema, "moderate", "error") →
      insertDoc st "tasks" doc = (st, false)) ∧
    (∀ (st : DbState) (doc : BVal) (s : String),
      getField doc "email" = some (.str s) →
      s.length < 5 →
      validatorD st "users" = some (usersSchema, "moderate", "error") →
      insertDoc st "users" doc = (st, false)) ∧
    (∀ (st : DbState) (fields : List (String × BVal)),
      (∀ kv ∈ fields, kv.1 ≠ "title") →
      validatorD st "tasks" = some (tasksSchema, "moderate", "error") →
      insertDoc st "tasks" (.obj fields) = (st, false)) := by
  refine ⟨?_, ?_, ?_⟩
  · intro st doc s h hs hv
    exact insertDoc_rejected st "tasks" doc tasksSchema _ _ hv
      (tasksSchema_rejects_bad_status doc s h hs)
  · intro st doc s h hlen hv
    exact insertDoc_rejected st "users" doc usersSchema _ _ hv
      (usersSchema_rejects_short_email doc s h hlen)
  · intro st fields h hv
    exact insertDoc_rejected st "tasks" (.obj fields) tasksSchema _ _ hv
      (tasksSchema_rejects_missing_title fields h)

/-- Witness for C8 at concrete states and documents: a `bogus` status, a
3-character email, and a titleless task are all rejected. -/
theorem claim8_witness :
    insertDoc [("tasks", (⟨some (tasksSchema, "moderate", "error"), [], []⟩ : CollState))]
        "tasks" (.obj [("status", .str "bogus")]) =
      ([("tasks", (⟨some (tasksSchema, "moderate", "error"), [], []⟩ : CollState))], false) ∧
    insertDoc [("users", (⟨some (usersSchema, "moderate", "error"), [], []⟩ : CollState))]
        "users" (.obj [("email", .str "a@b")]) =
      ([("users", (⟨some (usersSchema, "moderate", "error"), [], []⟩ : CollState))], false) ∧
    insertDoc [("tasks", (⟨some (tasksSchema, "moderate", "error"), [], []⟩ : CollState))]
        "tasks" (.obj [("status", .str "todo")]) =
      ([("tasks", (⟨some (tasksSchema, "moderate", "error"), [], []⟩ : CollState))], false) :=
  ⟨claim8_validator_enforcement.1 _ _ "bogus" rfl (by decide) rfl,
   claim8_validator_enforcement.2.1 _ _ "a@b" rfl (by decide) rfl,
   claim8_validator_enforcement.2.2 _ [("status", .str "todo")] (by decide) rfl⟩

/-- C9: the run's only document-level writes are the conditional seed
inserts — every collection's documents are preserved up to the seed
suffix, no pre-existing collection is dropped, and no pre-existing index
is dropped. -/
theorem claim9_frame (st : DbState) (uid now : Nat) (c : String) :
    docsD (runScript uid now st).1 c =
      docsD st c ++
        (if countDocuments st "users" = 0 then
           (if c = "users" then [seedUser uid now]
            else if c = "tasks" then [seedTask1 uid now, seedTask2 uid now]
            else [])
         else []) ∧
    (collExists st c = true → collExists (runScript uid now st).1 c = true) ∧
    (∀ i, hasIndex st c i = true → hasIndex (runScript uid now st).1 c i = true) := by
  refine ⟨runScript_docsD uid now st c, ?_, ?_⟩
  · intro h
    rw [runScript_fst]
    exact collExists_applyOps_mono _ st c h
  · intro i h
    rw [runScript_fst]
    exact hasIndex_applyOps_mono _ st c i h

/-- Witness for C9 at a concrete state: an unrelated collection `x` and
its index `i` survive a run. -/
theorem claim9_witness :
    collExists (runScript 1 0 [("x", (⟨none,
        [("i", ([("a", KeyVal.asc)], ({ name := some "i" } : IndexOptions)))],
        [BVal.obj []]⟩ : CollState))]).1 "x" = true ∧
    hasIndex (runScript 1 0 [("x", (⟨none,
        [("i", ([("a", KeyVal.asc)], ({ name := some "i" } : IndexOptions)))],
        [BVal.obj []]⟩ : CollState))]).1 "x" "i" = true :=
  ⟨(claim9_frame _ 1 0 "x").2.1 (by decide),
   (claim9_frame _ 1 0 "x").2.2 "i" (by decide)⟩

end MongoInit
